import Mathlib

/-!
Shallow embedding of the portfolio risk engine of this repository
(`utils/portfolio_analyzer.py`, `utils/risk_manager.py`, and the
quantum-inspired optimizer of `agents/advanced_agent_system.py`),
together with theorems settling the frozen claims about it.

Modelling conventions:
* Python/numpy floating point numbers are modelled as exact rationals
  (`ℚ`) where the source only uses field operations and comparisons,
  and as reals (`ℝ`) where a square root is taken.
* Division follows Lean's convention `x / 0 = 0`; the source produces a
  non-finite float there.  Every theorem that could be affected carries
  hypotheses that keep denominators meaningful, or states explicitly
  that the zero-denominator division is performed.
* A pandas reduction of an empty series yields `NaN` in the source; it
  is modelled as `Option.none`.  A numpy call that raises (for example
  `np.percentile` on an empty array or with a quantile outside
  `[0, 100]`) is also modelled as `Option.none` and the surrounding
  Python `try/except` as `Option.getD`.
* Calls into libraries that are not part of the repository
  (`scipy.optimize.minimize`) and reads of the global random number
  generator (`np.random.*`) are modelled as explicit oracle inputs.
-/

namespace Engine

/-- Arithmetic mean, `pandas.Series.mean` / `numpy.mean`: sum divided by
length.  On the empty list the source yields `NaN`; this model yields
`0 / 0 = 0`, and no theorem below evaluates the mean of an empty list. -/
def mean {α : Type} [LinearOrderedField α] (xs : List α) : α :=
  xs.sum / xs.length

/-- Sample variance with `ddof = 1`, the default of `pandas.Series.std`
and `pandas.DataFrame.cov`: sum of squared deviations from the mean,
divided by `length - 1`. -/
def sampleVar {α : Type} [LinearOrderedField α] (xs : List α) : α :=
  (xs.map (fun x => (x - mean xs) ^ 2)).sum / ((xs.length : α) - 1)

/-- Sample standard deviation (`pandas.Series.std`, `ddof = 1`). -/
noncomputable def std (xs : List ℝ) : ℝ :=
  Real.sqrt (sampleVar xs)

/-- `np.percentile(xs, 100 * c)` with the default linear-interpolation
method: sort the data, take `pos = c * (n - 1)`, and interpolate
linearly between the order statistics adjacent to `pos`.  `none` models
the numpy exceptions: `IndexError` on an empty array and `ValueError`
for a quantile outside `[0, 100]` (that is, `c` outside `[0, 1]`). -/
def percentile {α : Type} [LinearOrderedField α] [FloorRing α]
    [DecidableRel ((· ≤ ·) : α → α → Prop)] (xs : List α) (c : α) : Option α :=
  if xs = [] ∨ c < 0 ∨ 1 < c then none
  else
    let s := List.insertionSort (· ≤ ·) xs
    let n := xs.length
    let pos := c * ((n : α) - 1)
    let i := (⌊pos⌋).toNat
    if i + 1 < n then
      some (s.getD i 0 + (pos - (i : α)) * (s.getD (i + 1) 0 - s.getD i 0))
    else
      some (s.getD (n - 1) 0)

/-- Running product of `1 + r` along a return series with accumulator
`acc`, the tail of numpy/pandas `cumprod` on `1 + returns`. -/
def cumprodAux {α : Type} [Field α] (acc : α) : List α → List α
  | [] => []
  | r :: t =>
    let c := acc * (1 + r)
    c :: cumprodAux c t

/-- Cumulative-return curve `(1 + returns).cumprod()`. -/
def cumprodList {α : Type} [Field α] (rs : List α) : List α :=
  cumprodAux 1 rs

/-- Running maximum with accumulator `m`. -/
def runMaxAux {α : Type} [LinearOrder α] (m : α) : List α → List α
  | [] => []
  | x :: t =>
    let m' := max m x
    m' :: runMaxAux m' t

/-- Running maximum of a series, `series.expanding().max()`. -/
def runningMax {α : Type} [LinearOrder α] : List α → List α
  | [] => []
  | x :: t => x :: runMaxAux x t

/-- Pointwise drawdown `(cumulative - rolling_max) / rolling_max` of the
cumulative-return curve of a return series. -/
def drawdownList {α : Type} [LinearOrderedField α] (rs : List α) : List α :=
  let c := cumprodList rs
  List.zipWith (fun ci mi => (ci - mi) / mi) c (runningMax c)

/-- Maximum drawdown `drawdown.min()`: the pandas minimum of the
drawdown series, `none` (`NaN`) on an empty series. -/
def maxDrawdown {α : Type} [LinearOrderedField α] (rs : List α) : Option α :=
  (drawdownList rs).min?

end Engine

namespace RiskManager

/-- The risk-free rate set in `RiskManager.__init__` (`0.02`). -/
def risk_free_rate : ℚ := 1 / 50

/-- `RiskManager.calculate_var`: `np.percentile(returns, 100 * c)` with
the broad `try/except` of the source returning the default `0.0` when
numpy raises. -/
def calculate_var (returns : List ℚ) (confidence_level : ℚ) : ℚ :=
  (Engine.percentile returns confidence_level).getD 0

/-- `RiskManager.calculate_cvar`: mean of the returns at or below the
VaR threshold, `returns[returns <= var].mean()`.  The mean of an empty
selection is pandas `NaN`, modelled as `none`.  The source's
`try/except` is dead for numeric input: `calculate_var` already catches
its own exceptions, and the filtered mean never raises. -/
def calculate_cvar (returns : List ℚ) (confidence_level : ℚ) : Option ℚ :=
  let var := calculate_var returns confidence_level
  let selected := returns.filter (fun r => decide (r ≤ var))
  if selected = [] then none else some (Engine.mean selected)

/-- `RiskManager.calculate_max_drawdown`: cumulative product of
`1 + returns`, expanding maximum, pointwise drawdown, and its minimum.
On an empty series the pandas minimum is `NaN` (`none`); the
`try/except` branch returning `0.0` is unreachable for numeric input. -/
def calculate_max_drawdown (returns : List ℚ) : Option ℚ :=
  Engine.maxDrawdown returns

/-- `RiskManager.calculate_sharpe_ratio` (source name ends in `_ratio`):
`(returns.mean() - risk_free_rate / 252) / returns.std() * sqrt(252)`.
No input raises here: the empty or singleton series makes `std` a `NaN`
in the source, which propagates through the arithmetic and is returned,
so the `except` branch returning `0.0` is dead for numeric input. -/
noncomputable def calculate_sharpe (returns : List ℝ) : ℝ :=
  (Engine.mean returns - (risk_free_rate : ℝ) / 252) / Engine.std returns * Real.sqrt 252

end RiskManager

namespace PortfolioAnalyzer

/-- The risk-free rate set in `PortfolioAnalyzer.__init__` (`0.02`). -/
def risk_free_rate : ℚ := 1 / 50

/-- Error taxonomy named by the spec for the engine.  The source raises
none of these: its computations run unconditionally.  The only
exception the source can actually produce in
`calculate_portfolio_metrics` is the pandas broadcast `ValueError` when
the weight vector's length differs from the number of asset columns,
modelled by `broadcastError`. -/
inductive EngineError
  | invalidWeights
  | degenerateInput
  | domainMismatch
  | invalidParameter
  | broadcastError
  deriving DecidableEq

/-- Metrics dictionary returned by
`PortfolioAnalyzer.calculate_portfolio_metrics`.  The source's
`sharpe_ratio` key is the `sharpe` field here. -/
structure PortfolioMetrics where
  total_return : ℝ
  annualized_return : ℝ
  volatility : ℝ
  sharpe : ℝ
  max_drawdown : Option ℝ
  portfolio_returns : List ℝ

/-- Per-period portfolio returns `(returns * weights).sum(axis=1)`:
each row of the return matrix (one row per time period, one entry per
asset) is multiplied pointwise with the weight vector and summed. -/
def portfolioReturns (returns : List (List ℝ)) (weights : List ℝ) : List ℝ :=
  returns.map (fun row => (List.zipWith (· * ·) row weights).sum)

/-- The metrics block of `calculate_portfolio_metrics`, computed from
the per-period portfolio return series exactly as in the source:
compound total return, `(1 + mean)^252 - 1` annualized return,
`std * sqrt(252)` volatility, Sharpe ratio obtained by dividing by the
volatility with no zero check, and the drawdown minimum. -/
noncomputable def metricsFromSeries (p : List ℝ) : PortfolioMetrics :=
  let total_return := (p.map (fun r => 1 + r)).prod - 1
  let annualized_return := (1 + Engine.mean p) ^ (252 : ℕ) - 1
  let volatility := Engine.std p * Real.sqrt 252
  { total_return := total_return
    annualized_return := annualized_return
    volatility := volatility
    sharpe := (annualized_return - (risk_free_rate : ℝ)) / volatility
    max_drawdown := Engine.maxDrawdown p
    portfolio_returns := p }

/-- `PortfolioAnalyzer.calculate_portfolio_metrics`.  The source body
performs no validation of the weights and raises none of the spec's
errors; the only failure it can produce is the pandas broadcast
`ValueError` on a weight vector whose length differs from the number
of columns. -/
noncomputable def calculate_portfolio_metrics (returns : List (List ℝ))
    (weights : List ℝ) : Except EngineError PortfolioMetrics :=
  if ∀ row ∈ returns, row.length = weights.length then
    .ok (metricsFromSeries (portfolioReturns returns weights))
  else
    .error .broadcastError

/-- Outcome of the external `scipy.optimize.minimize` call inside
`optimize_portfolio`.  scipy is not part of this repository, so the
solver is an oracle: it either succeeds with a solution vector
(`result.success` true, `result.x = x`), fails to converge
(`result.success` false), or raises. -/
inductive SolverOutcome
  | success (x : List ℚ)
  | failure
  | exn
  deriving DecidableEq

/-- The equal-weight initial guess `x0 = [1/n] * n` of
`optimize_portfolio`, also its fallback return value. -/
def equalWeights (n : ℕ) : List ℚ :=
  List.replicate n ((n : ℚ))⁻¹

/-- `PortfolioAnalyzer.optimize_portfolio`: returns `result.x` when the
solver reports success, and otherwise — non-convergence or an exception
(and likewise when scipy is missing) — returns the equal-weight vector
`x0`.  The returned value is a bare weight array: nothing in it records
whether the fallback was taken. -/
def optimize_portfolio (n_assets : ℕ) (outcome : SolverOutcome) : List ℚ :=
  let x0 := equalWeights n_assets
  match outcome with
  | .success x => x
  | .failure => x0
  | .exn => x0

/-- `PortfolioAnalyzer.calculate_var_cvar`: the non-interpolating
variant.  `index = int(c * n)`, `var = sorted[index]`,
`cvar = sorted[:index].mean()`.  The `var` lookup is a plain index
(`none` when out of range, where the source raises an uncaught
`IndexError`), and the `cvar` mean of an empty prefix is `NaN`
(`none`). -/
def calculate_var_cvar (returns : List ℚ) (confidence_level : ℚ) :
    Option ℚ × Option ℚ :=
  let sorted_returns := List.insertionSort (· ≤ ·) returns
  let index := (⌊confidence_level * (returns.length : ℚ)⌋).toNat
  let var := sorted_returns.get? index
  let prefixList := sorted_returns.take index
  (var, if prefixList = [] then none else some (Engine.mean prefixList))

/-- Mean of column `j` of the return matrix (`returns.mean()`). -/
noncomputable def colMean (returns : List (List ℝ)) (j : ℕ) : ℝ :=
  Engine.mean (returns.map (fun row => row.getD j 0))

/-- Entry `(i, j)` of the sample covariance matrix `returns.cov()`
(`ddof = 1`, the pandas default). -/
noncomputable def colCov (returns : List (List ℝ)) (i j : ℕ) : ℝ :=
  let xs := returns.map (fun row => row.getD i 0)
  let ys := returns.map (fun row => row.getD j 0)
  (List.zipWith (fun x y => (x - Engine.mean xs) * (y - Engine.mean ys)) xs ys).sum /
    ((returns.length : ℝ) - 1)

/-- Portfolio mean `np.dot(weights, mean_returns)`. -/
noncomputable def portfolioMean (returns : List (List ℝ)) (weights : List ℝ) : ℝ :=
  (Finset.range weights.length).sum (fun j => weights.getD j 0 * colMean returns j)

/-- Portfolio variance `weights' · Cov · weights`. -/
noncomputable def portfolioVar (returns : List (List ℝ)) (weights : List ℝ) : ℝ :=
  (Finset.range weights.length).sum (fun i =>
    (Finset.range weights.length).sum (fun j =>
      weights.getD i 0 * weights.getD j 0 * colCov returns i j))

/-- Result of `PortfolioAnalyzer.monte_carlo_simulation`. -/
structure MCResult where
  simulations : List (List ℝ)
  final_values : List ℝ
  p5 : ℝ
  p50 : ℝ
  p95 : ℝ

/-- `PortfolioAnalyzer.monte_carlo_simulation`.  The source draws
`num_simulations × time_horizon` samples from
`np.random.normal(portfolio_mean, portfolio_std, ...)`, reading the
process-global numpy random generator.  That generator is modelled by
the explicit argument `zs`: one list of standard-normal draws per
simulated path, each draw `z` giving the sample
`portfolio_mean + portfolio_std * z`.  Each path is compounded with
`cumprod(1 + samples)` and its last entry is the terminal value. -/
noncomputable def monte_carlo_simulation (returns : List (List ℝ))
    (weights : List ℝ) (zs : List (List ℝ)) : MCResult :=
  let pm := portfolioMean returns weights
  let ps := Real.sqrt (portfolioVar returns weights)
  let sims := zs.map (fun path => Engine.cumprodList (path.map (fun z => pm + ps * z)))
  let fv := sims.map (fun cp => cp.getLastD 0)
  { simulations := sims
    final_values := fv
    p5 := (Engine.percentile fv (5 / 100)).getD 0
    p50 := (Engine.percentile fv (50 / 100)).getD 0
    p95 := (Engine.percentile fv (95 / 100)).getD 0 }

end PortfolioAnalyzer

namespace QuantumPortfolioOptimizer

/-- One iteration of the `quantum_optimize` loop: a fresh Dirichlet
weight draw `ws` from the global numpy generator, and the Boolean
outcome `accept` of the acceptance test
`fitness > best_score or np.random.random() < exp(-(best_score - fitness) / 0.1)`,
whose second disjunct compares a fresh uniform draw; the test's outcome
is therefore itself randomness-dependent and is modelled as an oracle
Boolean. -/
structure QStep where
  ws : List ℚ
  accept : Bool

/-- The `quantum_optimize` iteration fold: when a step is accepted its
sampled weights replace the incumbent `best_weights`, otherwise the
incumbent is kept. -/
def quantum_loop (best : List ℚ) : List QStep → List ℚ
  | [] => best
  | s :: t => quantum_loop (if s.accept then s.ws else best) t

/-- `QuantumPortfolioOptimizer.quantum_optimize`, sampling path: the
initial `best_weights` Dirichlet draw `init`, the iterated loop, and
the final `dict(zip(returns.columns, best_weights))`, modelled as an
association list (equivalent to the Python dict when the column names
are distinct, as the ReturnMatrix invariant requires). -/
def quantum_optimize (cols : List String) (init : List ℚ)
    (steps : List QStep) : List (String × ℚ) :=
  cols.zip (quantum_loop init steps)

/-- `quantum_optimize`, exception fallback path:
`{symbol: 1.0 / n_assets for symbol in returns.columns}`. -/
def quantum_fallback (cols : List String) : List (String × ℚ) :=
  cols.map (fun s => (s, ((cols.length : ℚ))⁻¹))

end QuantumPortfolioOptimizer

/-! Helper lemmas about the engine's numeric kernels. -/

namespace Engine

variable {α : Type} [LinearOrderedField α]

lemma cumprodAux_pos (rs : List α) :
    ∀ acc : α, 0 < acc → (∀ r ∈ rs, -1 < r) →
      ∀ c ∈ cumprodAux acc rs, 0 < c := by
  induction rs with
  | nil => intro acc _ _ c hc; simp [cumprodAux] at hc
  | cons r t ih =>
    intro acc hacc hrs c hc
    have hr : (-1 : α) < r := hrs r (List.mem_cons_self _ _)
    have hpos : 0 < acc * (1 + r) := by
      have : (0 : α) < 1 + r := by linarith
      positivity
    rcases List.mem_cons.1 hc with h | h
    · simpa [cumprodAux, h] using hpos
    · exact ih (acc * (1 + r)) hpos (fun x hx => hrs x (List.mem_cons_of_mem _ hx)) c h

lemma zip_dd_nonpos (xs : List α) :
    ∀ m : α, 0 < m → (∀ x ∈ xs, 0 < x) →
      ∀ d ∈ List.zipWith (fun c M => (c - M) / M) xs (runMaxAux m xs), d ≤ 0 := by
  induction xs with
  | nil => intro m _ _ d hd; simp [runMaxAux] at hd
  | cons x t ih =>
    intro m hm hxs d hd
    have hx : 0 < x := hxs x (List.mem_cons_self _ _)
    have hM : 0 < max m x := lt_max_of_lt_right hx
    rcases List.mem_cons.1 hd with h | h
    · have hxM : x - max m x ≤ 0 := sub_nonpos.2 (le_max_right m x)
      rw [h]
      exact div_nonpos_iff.2 (Or.inr ⟨hxM, le_of_lt hM⟩)
    · exact ih (max m x) hM (fun y hy => hxs y (List.mem_cons_of_mem _ hy)) d h

lemma zip_dd_nonneg_iff (xs : List α) :
    ∀ m : α, 0 < m → (∀ x ∈ xs, 0 < x) →
      ((∀ d ∈ List.zipWith (fun c M => (c - M) / M) xs (runMaxAux m xs), 0 ≤ d) ↔
        List.Chain (· ≤ ·) m xs) := by
  induction xs with
  | nil => intro m _ _; simp [runMaxAux]
  | cons x t ih =>
    intro m hm hxs
    have hx : 0 < x := hxs x (List.mem_cons_self _ _)
    have hM : 0 < max m x := lt_max_of_lt_right hx
    have hxt : ∀ y ∈ t, 0 < y := fun y hy => hxs y (List.mem_cons_of_mem _ hy)
    rw [List.chain_cons]
    simp only [runMaxAux, List.zipWith_cons_cons, List.forall_mem_cons]
    constructor
    · rintro ⟨h1, h2⟩
      have hmx : m ≤ x := by
        by_contra hlt
        push_neg at hlt
        have hmax : max m x = m := max_eq_left (le_of_lt hlt)
        rw [hmax] at h1
        have h0 : 0 ≤ x - m := by
          rcases div_nonneg_iff.1 h1 with ⟨h, _⟩ | ⟨_, h⟩
          · exact h
          · linarith
        linarith
      have hmax : max m x = x := max_eq_right hmx
      rw [hmax] at h2
      exact ⟨hmx, (ih x hx hxt).1 h2⟩
    · rintro ⟨hmx, hch⟩
      have hmax : max m x = x := max_eq_right hmx
      rw [hmax]
      exact ⟨by simp, (ih x hx hxt).2 hch⟩

lemma foldl_min_mem (l : List α) : ∀ x : α, l.foldl min x ∈ x :: l := by
  induction l with
  | nil => intro x; simp
  | cons y t ih =>
    intro x
    rw [List.foldl_cons]
    rcases List.mem_cons.1 (ih (min x y)) with h | h
    · rcases min_choice x y with hm | hm
      · rw [h, hm]; exact List.mem_cons_self _ _
      · rw [h, hm]; exact List.mem_cons_of_mem _ (List.mem_cons_self _ _)
    · exact List.mem_cons_of_mem _ (List.mem_cons_of_mem _ h)

lemma foldl_min_le (l : List α) : ∀ x : α, ∀ b ∈ x :: l, l.foldl min x ≤ b := by
  induction l with
  | nil =>
    intro x b hb
    simp at hb
    simp [hb]
  | cons y t ih =>
    intro x b hb
    rw [List.foldl_cons]
    rcases List.mem_cons.1 hb with h | h
    · rw [h]
      exact le_trans (ih (min x y) _ (List.mem_cons_self _ _)) (min_le_left x y)
    · rcases List.mem_cons.1 h with h' | h'
      · rw [h']
        exact le_trans (ih (min x y) _ (List.mem_cons_self _ _)) (min_le_right x y)
      · exact ih (min x y) b (List.mem_cons_of_mem _ h')

end Engine

namespace Engine

lemma var_exists_le (rs : List ℚ) (c : ℚ) (hne : rs ≠ [])
    (h0 : 0 ≤ c) (h1 : c ≤ 1) :
    ∃ x ∈ rs, x ≤ RiskManager.calculate_var rs c := by
  have hcond : ¬(rs = [] ∨ c < 0 ∨ 1 < c) := by
    push_neg
    exact ⟨hne, h0, h1⟩
  have hn : 0 < rs.length := List.length_pos.2 hne
  set s := List.insertionSort (· ≤ ·) rs with hs
  have hperm : s.Perm rs := List.perm_insertionSort _ rs
  have hslen : s.length = rs.length := hperm.length_eq
  have hsorted : List.Sorted (· ≤ ·) s := List.sorted_insertionSort _ rs
  have hmono : ∀ k, k < s.length → s.getD 0 0 ≤ s.getD k 0 := by
    intro k hk
    have h0k : 0 < s.length := lt_of_le_of_lt (Nat.zero_le k) hk
    rw [List.getD_eq_getElem s 0 h0k, List.getD_eq_getElem s 0 hk]
    rcases Nat.eq_zero_or_pos k with hk0 | hkpos
    · subst hk0; exact le_refl _
    · exact List.pairwise_iff_get.1 hsorted ⟨0, h0k⟩ ⟨k, hk⟩ hkpos
  have hmem0 : s.getD 0 0 ∈ rs := by
    have : s.getD 0 0 ∈ s := by
      rw [List.getD_eq_getElem s 0 (hslen ▸ hn)]
      exact List.getElem_mem _
    exact hperm.mem_iff.1 this
  refine ⟨s.getD 0 0, hmem0, ?_⟩
  rw [RiskManager.calculate_var, Engine.percentile, if_neg hcond]
  simp only []
  set pos := c * ((rs.length : ℚ) - 1) with hposdef
  have hpos0 : 0 ≤ pos := by
    apply mul_nonneg h0
    have : (1 : ℚ) ≤ (rs.length : ℚ) := by exact_mod_cast hn
    linarith
  have hfl : ((⌊pos⌋.toNat : ℚ)) = ⌊pos⌋ := by
    exact_mod_cast Int.toNat_of_nonneg (Int.floor_nonneg.2 hpos0)
  have hgam0 : 0 ≤ pos - (⌊pos⌋.toNat : ℚ) := by
    rw [hfl]
    exact sub_nonneg.2 (Int.floor_le pos)
  have hgam1 : pos - (⌊pos⌋.toNat : ℚ) < 1 := by
    rw [hfl]
    have := Int.sub_one_lt_floor pos
    linarith
  by_cases hbr : ⌊pos⌋.toNat + 1 < rs.length
  · rw [if_pos hbr]
    rw [Option.getD_some]
    have hi1 : ⌊pos⌋.toNat + 1 < s.length := by rw [hslen]; exact hbr
    have hi : ⌊pos⌋.toNat < s.length := Nat.lt_of_succ_lt hi1
    have ha := hmono _ hi
    have hb := hmono _ hi1
    nlinarith [ha, hb, hgam0, hgam1]
  · rw [if_neg hbr, Option.getD_some]
    apply hmono
    rw [hslen]
    exact Nat.sub_lt hn Nat.one_pos

lemma mean_le_of_forall_le (l : List ℚ) (hne : l ≠ []) (v : ℚ)
    (h : ∀ x ∈ l, x ≤ v) : Engine.mean l ≤ v := by
  have hlen : 0 < (l.length : ℚ) := by
    exact_mod_cast List.length_pos.2 hne
  rw [Engine.mean, div_le_iff₀ hlen]
  have := List.sum_le_card_nsmul l v h
  simpa [nsmul_eq_mul, mul_comm] using this

end Engine

/-- C6 (amended): for a nonempty return series whose returns all exceed
-1 (positive cumulative curve), the maximum drawdown exists, is at most
0, and is 0 exactly when the cumulative-return curve is non-decreasing
at every step. -/
theorem c6_drawdown_amended (rs : List ℚ) (hne : rs ≠ [])
    (hgt : ∀ r ∈ rs, -1 < r) :
    ∃ d, RiskManager.calculate_max_drawdown rs = some d ∧ d ≤ 0 ∧
      (d = 0 ↔ List.Chain' (· ≤ ·) (Engine.cumprodList rs)) := by
  obtain ⟨r, rt, rfl⟩ := List.exists_cons_of_ne_nil hne
  have hpos : ∀ x ∈ Engine.cumprodList (r :: rt), 0 < x :=
    Engine.cumprodAux_pos (r :: rt) 1 one_pos hgt
  have hcum : Engine.cumprodList (r :: rt)
      = 1 * (1 + r) :: Engine.cumprodAux (1 * (1 + r)) rt := rfl
  set c1 : ℚ := 1 * (1 + r) with hc1def
  set ct : List ℚ := Engine.cumprodAux c1 rt with hctdef
  have hc1pos : 0 < c1 := hpos c1 (hcum ▸ List.mem_cons_self _ _)
  have hctpos : ∀ x ∈ ct, 0 < x := fun x hx =>
    hpos x (hcum ▸ List.mem_cons_of_mem _ hx)
  set dd' : List ℚ := List.zipWith (fun ci mi => (ci - mi) / mi) ct
    (Engine.runMaxAux c1 ct) with hdd'
  have hddlist : Engine.drawdownList (r :: rt) = 0 :: dd' := by
    rw [Engine.drawdownList]
    simp only [hcum, ← hc1def, ← hctdef, Engine.runningMax,
      List.zipWith_cons_cons, sub_self, zero_div, ← hdd']
  have hmin : RiskManager.calculate_max_drawdown (r :: rt)
      = some (dd'.foldl min 0) := by
    rw [RiskManager.calculate_max_drawdown, Engine.maxDrawdown, hddlist,
      List.min?]
  set d : ℚ := dd'.foldl min 0 with hddef
  have hdmem : d ∈ (0 : ℚ) :: dd' := Engine.foldl_min_mem dd' 0
  have hdle : ∀ b ∈ (0 : ℚ) :: dd', d ≤ b := Engine.foldl_min_le dd' 0
  have hd0 : d ≤ 0 := hdle 0 (List.mem_cons_self _ _)
  refine ⟨d, hmin, hd0, ?_⟩
  have hiff := Engine.zip_dd_nonneg_iff ct c1 hc1pos hctpos
  constructor
  · intro hdz
    have hall : ∀ b ∈ dd', 0 ≤ b := by
      intro b hb
      have := hdle b (List.mem_cons_of_mem _ hb)
      linarith [hdz ▸ this]
    have hchain : List.Chain (· ≤ ·) c1 ct := hiff.1 hall
    rw [hcum]
    exact hchain
  · intro hchain
    have hchain' : List.Chain (· ≤ ·) c1 ct := by
      rw [hcum] at hchain
      exact hchain
    have hall : ∀ b ∈ dd', 0 ≤ b := hiff.2 hchain'
    rcases List.mem_cons.1 hdmem with h | h
    · exact h
    · exact le_antisymm hd0 (hall d h)

/-- C6 witness: a concrete series within the amended hypotheses. -/
theorem c6_drawdown_amended_witness :
    ∃ d, RiskManager.calculate_max_drawdown [1/10, -1/20] = some d ∧ d ≤ 0 ∧
      (d = 0 ↔ List.Chain' (· ≤ ·) (Engine.cumprodList [(1:ℚ)/10, -1/20])) :=
  c6_drawdown_amended [1/10, -1/20] (by simp) (by norm_num)

/-- C6 counterexample: for the series `[-2, 1/2]` the cumulative-return
curve `[-1, -3/2]` is strictly decreasing at its single step, yet the
computed maximum drawdown is `0`, refuting the claimed equivalence for
arbitrary return series. -/
theorem c6_drawdown_counterexample :
    RiskManager.calculate_max_drawdown [-2, 1/2] = some 0 ∧
      ¬ List.Chain' (· ≤ ·) (Engine.cumprodList [(-2 : ℚ), 1/2]) := by
  constructor
  · norm_num [RiskManager.calculate_max_drawdown, Engine.maxDrawdown,
      Engine.drawdownList, Engine.cumprodList, Engine.cumprodAux,
      Engine.runningMax, Engine.runMaxAux, List.min?]
  · norm_num [Engine.cumprodList, Engine.cumprodAux, List.chain'_cons]

/-- C2: `RiskManager.calculate_var` (the engine's `calculateVaR`,
`np.percentile` with the default linear method) on the ten-point series
at confidence `0.05` interpolates at position `0.05 * 9 = 0.45` between
the two smallest order statistics and returns exactly `-0.041`. -/
theorem c2_var_linear_interpolation :
    RiskManager.calculate_var
        [-1/20, -3/100, -1/100, 0, 1/50, 1/25, 3/50, 7/100, 2/25, 9/100]
        (1/20) = -41/1000 ∧
      (-41/1000 : ℚ) = -1/20 + (9/20) * (-3/100 - (-1/20)) := by
  constructor
  · norm_num [RiskManager.calculate_var, Engine.percentile,
      List.insertionSort, List.orderedInsert, List.getD, List.cons_ne_nil]
  · norm_num

/-- C3: for a nonempty return series and a confidence level in `(0, 1)`,
`calculate_cvar` returns the mean of the returns at or below the VaR
threshold; that set is never empty (the linear-interpolation VaR is at
least the sample minimum, so the degenerate `CVaR = VaR` clause is
vacuous), and the CVaR is at most the VaR. -/
theorem c3_cvar_tail_mean (rs : List ℚ) (c : ℚ) (hne : rs ≠ [])
    (h0 : 0 < c) (h1 : c < 1) :
    ∃ m, RiskManager.calculate_cvar rs c = some m ∧
      rs.filter (fun r => decide (r ≤ RiskManager.calculate_var rs c)) ≠ [] ∧
      m = Engine.mean
        (rs.filter (fun r => decide (r ≤ RiskManager.calculate_var rs c))) ∧
      m ≤ RiskManager.calculate_var rs c := by
  obtain ⟨x, hx, hxle⟩ := Engine.var_exists_le rs c hne h0.le h1.le
  have hmem : x ∈ rs.filter
      (fun r => decide (r ≤ RiskManager.calculate_var rs c)) :=
    List.mem_filter.2 ⟨hx, by simpa using hxle⟩
  have hselne : rs.filter
      (fun r => decide (r ≤ RiskManager.calculate_var rs c)) ≠ [] :=
    List.ne_nil_of_mem hmem
  have hallle : ∀ y ∈ rs.filter
      (fun r => decide (r ≤ RiskManager.calculate_var rs c)),
      y ≤ RiskManager.calculate_var rs c := by
    intro y hy
    simpa using (List.mem_filter.1 hy).2
  have heq : RiskManager.calculate_cvar rs c =
      if rs.filter (fun r => decide (r ≤ RiskManager.calculate_var rs c)) = []
      then none
      else some (Engine.mean
        (rs.filter (fun r => decide (r ≤ RiskManager.calculate_var rs c)))) := rfl
  refine ⟨_, ?_, hselne, rfl, Engine.mean_le_of_forall_le _ hselne _ hallle⟩
  rw [heq, if_neg hselne]

/-- C3 witness: a concrete nonempty series and interior confidence
level. -/
theorem c3_cvar_tail_mean_witness :
    ∃ m, RiskManager.calculate_cvar [-1/20, 1/10] (1/4) = some m ∧
      [-1/20, 1/10].filter
        (fun r => decide (r ≤ RiskManager.calculate_var [-1/20, 1/10] (1/4))) ≠ [] ∧
      m = Engine.mean
        ([-1/20, 1/10].filter
          (fun r => decide (r ≤ RiskManager.calculate_var [-1/20, 1/10] (1/4)))) ∧
      m ≤ RiskManager.calculate_var [-1/20, 1/10] (1/4) :=
  c3_cvar_tail_mean [-1/20, 1/10] (1/4) (by simp) (by norm_num) (by norm_num)

/-- C9: the RiskManager kernels return the default `0.0` whenever their
body raises, and a legitimate result can also be `0.0`, so the two are
indistinguishable to the caller.  Among the four kernels only
`calculate_var` has a reachable exception for numeric input (numpy
`percentile` raises on an empty array and on a quantile outside
`[0, 100]`): the failure modes of `calculate_cvar`,
`calculate_sharpe` and `calculate_max_drawdown` produce `NaN`
values without raising, so their `except` branches are vacuous. -/
theorem c9_default_zero_indistinguishable :
    (∀ c : ℚ, RiskManager.calculate_var [] c = 0) ∧
      (∀ rs : List ℚ, RiskManager.calculate_var rs 2 = 0) ∧
      RiskManager.calculate_var [0, 0] (1/20) = 0 ∧
      RiskManager.calculate_var [] (1/20) =
        RiskManager.calculate_var [0, 0] (1/20) := by
  have h1 : ∀ c : ℚ, RiskManager.calculate_var [] c = 0 := by
    intro c
    simp [RiskManager.calculate_var, Engine.percentile]
  have h2 : ∀ rs : List ℚ, RiskManager.calculate_var rs 2 = 0 := by
    intro rs
    norm_num [RiskManager.calculate_var, Engine.percentile]
  have h3 : RiskManager.calculate_var [0, 0] (1/20) = 0 := by
    norm_num [RiskManager.calculate_var, Engine.percentile,
      List.insertionSort, List.orderedInsert, List.getD, List.cons_ne_nil]
  exact ⟨h1, h2, h3, by rw [h1, h3]⟩

namespace QuantumPortfolioOptimizer

lemma quantum_loop_mem (steps : List QStep) :
    ∀ best, quantum_loop best steps = best ∨
      ∃ s ∈ steps, quantum_loop best steps = s.ws := by
  induction steps with
  | nil => intro best; exact Or.inl rfl
  | cons s t ih =>
    intro best
    have hstep : quantum_loop best (s :: t) =
        quantum_loop (if s.accept then s.ws else best) t := rfl
    rcases ih (if s.accept then s.ws else best) with h | h
    · by_cases ha : s.accept
      · right
        refine ⟨s, List.mem_cons_self _ _, ?_⟩
        rw [hstep, h, if_pos ha]
      · left
        rw [hstep, h, if_neg ha]
    · obtain ⟨s', hs', heq⟩ := h
      right
      exact ⟨s', List.mem_cons_of_mem _ hs', hstep ▸ heq⟩

lemma sum_map_fun_const (l : List String) (q : ℚ) :
    (l.map (fun _ => q)).sum = l.length * q := by
  induction l with
  | nil => simp
  | cons x t ih => simp [ih]; ring

end QuantumPortfolioOptimizer

/-- C4 counterexample: `optimize_portfolio` returns a bare weight
vector; on solver failure it returns the equal-weight vector, which is
byte-for-byte identical to the result of a successful solve at the
equal-weight point.  The caller therefore receives no
`usedFallback`-style signal distinguishing the two. -/
theorem c4_optimize_fallback_counterexample :
    PortfolioAnalyzer.optimize_portfolio 2 .failure =
        PortfolioAnalyzer.optimize_portfolio 2
          (.success (PortfolioAnalyzer.equalWeights 2)) ∧
      PortfolioAnalyzer.optimize_portfolio 2 .failure =
        PortfolioAnalyzer.equalWeights 2 :=
  ⟨rfl, rfl⟩

/-- C4 (amended): on every fallback path (solver non-convergence or
exception) `optimize_portfolio` silently returns the equal-weight
vector `x0`, indistinguishable from a converged solution with the same
weights; no fallback flag exists in the return value. -/
theorem c4_optimize_silent_fallback (n : ℕ) :
    PortfolioAnalyzer.optimize_portfolio n .failure =
        PortfolioAnalyzer.equalWeights n ∧
      PortfolioAnalyzer.optimize_portfolio n .exn =
        PortfolioAnalyzer.equalWeights n ∧
      PortfolioAnalyzer.optimize_portfolio n .failure =
        PortfolioAnalyzer.optimize_portfolio n
          (.success (PortfolioAnalyzer.equalWeights n)) :=
  ⟨rfl, rfl, rfl⟩

/-- C10: for a nonempty return matrix with distinct asset columns,
`quantum_optimize` returns a weight mapping whose keys are exactly the
asset columns with non-negative weights summing to 1, provided every
Dirichlet draw consumed by the loop is a point of the simplex (which
holds surely for `np.random.dirichlet`); the equal-weight exception
fallback satisfies the same invariant. -/
theorem c10_quantum_simplex (cols : List String) (init : List ℚ)
    (steps : List QuantumPortfolioOptimizer.QStep)
    (hcols : cols ≠ []) (_hnodup : cols.Nodup)
    (hinitlen : init.length = cols.length)
    (hinit0 : ∀ x ∈ init, 0 ≤ x) (hinit1 : init.sum = 1)
    (hsteps : ∀ s ∈ steps,
      (QuantumPortfolioOptimizer.QStep.ws s).length = cols.length ∧
        (∀ x ∈ QuantumPortfolioOptimizer.QStep.ws s, 0 ≤ x) ∧
        (QuantumPortfolioOptimizer.QStep.ws s).sum = 1) :
    ((QuantumPortfolioOptimizer.quantum_optimize cols init steps).map
        Prod.fst = cols ∧
      (∀ p ∈ QuantumPortfolioOptimizer.quantum_optimize cols init steps,
        0 ≤ p.2) ∧
      ((QuantumPortfolioOptimizer.quantum_optimize cols init steps).map
        Prod.snd).sum = 1) ∧
    ((QuantumPortfolioOptimizer.quantum_fallback cols).map Prod.fst = cols ∧
      (∀ p ∈ QuantumPortfolioOptimizer.quantum_fallback cols, 0 ≤ p.2) ∧
      ((QuantumPortfolioOptimizer.quantum_fallback cols).map Prod.snd).sum
        = 1) := by
  have hw : (QuantumPortfolioOptimizer.quantum_loop init steps).length
        = cols.length ∧
      (∀ x ∈ QuantumPortfolioOptimizer.quantum_loop init steps, 0 ≤ x) ∧
      (QuantumPortfolioOptimizer.quantum_loop init steps).sum = 1 := by
    rcases QuantumPortfolioOptimizer.quantum_loop_mem steps init with h | h
    · rw [h]
      exact ⟨hinitlen, hinit0, hinit1⟩
    · obtain ⟨s, hs, heq⟩ := h
      rw [heq]
      exact hsteps s hs
  obtain ⟨hwlen, hw0, hw1⟩ := hw
  constructor
  · refine ⟨?_, ?_, ?_⟩
    · exact List.map_fst_zip cols _ (le_of_eq hwlen.symm)
    · intro p hp
      have := List.of_mem_zip hp
      exact hw0 p.2 this.2
    · rw [QuantumPortfolioOptimizer.quantum_optimize,
        List.map_snd_zip _ _ (le_of_eq hwlen), hw1]
  · have hlpos : 0 < (cols.length : ℚ) := by
      exact_mod_cast List.length_pos.2 hcols
    refine ⟨?_, ?_, ?_⟩
    · rw [QuantumPortfolioOptimizer.quantum_fallback, List.map_map]
      have h : (Prod.fst ∘ fun s : String => (s, ((cols.length : ℚ))⁻¹))
          = id := rfl
      rw [h, List.map_id]
    · intro p hp
      obtain ⟨s, _, rfl⟩ := List.mem_map.1 hp
      exact inv_nonneg.2 (le_of_lt hlpos)
    · rw [QuantumPortfolioOptimizer.quantum_fallback, List.map_map]
      have : ((fun p : String × ℚ => p.2) ∘
          (fun s => (s, ((cols.length : ℚ))⁻¹))) =
          fun _ : String => ((cols.length : ℚ))⁻¹ := rfl
      rw [this, QuantumPortfolioOptimizer.sum_map_fun_const]
      exact mul_inv_cancel₀ (ne_of_gt hlpos)

/-- C10 witness: two distinct columns, a simplex initial draw, and one
accepted simplex sample. -/
theorem c10_quantum_simplex_witness :
    (((QuantumPortfolioOptimizer.quantum_optimize ["A", "B"] [1/2, 1/2]
        [⟨[1/3, 2/3], true⟩]).map Prod.fst = ["A", "B"] ∧
      (∀ p ∈ QuantumPortfolioOptimizer.quantum_optimize ["A", "B"]
        [1/2, 1/2] [⟨[1/3, 2/3], true⟩], 0 ≤ p.2) ∧
      ((QuantumPortfolioOptimizer.quantum_optimize ["A", "B"] [1/2, 1/2]
        [⟨[1/3, 2/3], true⟩]).map Prod.snd).sum = 1) ∧
    ((QuantumPortfolioOptimizer.quantum_fallback ["A", "B"]).map
        Prod.fst = ["A", "B"] ∧
      (∀ p ∈ QuantumPortfolioOptimizer.quantum_fallback ["A", "B"],
        0 ≤ p.2) ∧
      ((QuantumPortfolioOptimizer.quantum_fallback ["A", "B"]).map
        Prod.snd).sum = 1)) :=
  c10_quantum_simplex ["A", "B"] [1/2, 1/2] [⟨[1/3, 2/3], true⟩]
    (by simp) (by simp) (by simp) (by norm_num) (by norm_num)
    (by intro s hs; simp at hs; subst hs; refine ⟨by simp, by norm_num, by norm_num⟩)

/-- C1 counterexample: the weight vector `[2]` sums to `2`, violating
the simplex invariant by far more than `1e-6`, yet
`calculate_portfolio_metrics` happily returns a metrics value instead
of failing with `InvalidWeightsError`. -/
theorem c1_no_weight_validation_counterexample :
    |List.sum [(2 : ℝ)] - 1| > 1 / 1000000 ∧
      (PortfolioAnalyzer.calculate_portfolio_metrics [[1/10], [1/5]]
        [2]).isOk = true := by
  constructor
  · norm_num
  · rw [PortfolioAnalyzer.calculate_portfolio_metrics, if_pos]
    · rfl
    · intro row hrow
      simp at hrow
      rcases hrow with h | h <;> simp [h]

/-- C1 (amended): `calculate_portfolio_metrics` performs no validation
of the weight vector at all: for every return matrix and every weight
vector of matching length it returns a metrics value and never
`InvalidWeightsError`. -/
theorem c1_no_weight_validation (returns : List (List ℝ)) (weights : List ℝ)
    (hshape : ∀ row ∈ returns, row.length = weights.length) :
    (PortfolioAnalyzer.calculate_portfolio_metrics returns weights).isOk
      = true := by
  rw [PortfolioAnalyzer.calculate_portfolio_metrics, if_pos hshape]
  rfl

/-- C1 witness. -/
theorem c1_no_weight_validation_witness :
    (PortfolioAnalyzer.calculate_portfolio_metrics [[(1:ℝ)/10], [1/5]]
      [1]).isOk = true :=
  c1_no_weight_validation [[(1:ℝ)/10], [1/5]] [1] (by
    intro row hrow
    simp at hrow
    rcases hrow with h | h <;> simp [h])

/-- C5 counterexample: the constant portfolio return series
`[0.1, 0.1]` has sample standard deviation exactly `0`, yet
`calculate_portfolio_metrics` does not fail with
`DegenerateInputError`; it returns a metrics value, performing the
Sharpe division against the zero volatility. -/
theorem c5_no_zero_volatility_check_counterexample :
    Engine.std (PortfolioAnalyzer.portfolioReturns [[(1:ℝ)/10], [1/10]]
      [1]) = 0 ∧
      PortfolioAnalyzer.calculate_portfolio_metrics [[(1:ℝ)/10], [1/10]]
          [1] ≠
        Except.error PortfolioAnalyzer.EngineError.degenerateInput := by
  have hstd : Engine.std (PortfolioAnalyzer.portfolioReturns
      [[(1:ℝ)/10], [1/10]] [1]) = 0 := by
    have hvar : Engine.sampleVar (PortfolioAnalyzer.portfolioReturns
        [[(1:ℝ)/10], [1/10]] [1]) = 0 := by
      norm_num [Engine.sampleVar, Engine.mean,
        PortfolioAnalyzer.portfolioReturns, List.zipWith]
    rw [Engine.std, hvar, Real.sqrt_zero]
  refine ⟨hstd, ?_⟩
  rw [PortfolioAnalyzer.calculate_portfolio_metrics, if_pos]
  · simp
  · intro row hrow
    simp at hrow
    simp [hrow]

/-- C5 (amended): `calculate_portfolio_metrics` has no zero-volatility
check.  Whenever the per-period portfolio returns have sample standard
deviation `0`, the call still returns a metrics value whose volatility
field is `0` and whose Sharpe field is the division of the excess
return by that zero volatility (a non-finite float in the source,
Lean's `x / 0` here), rather than a `DegenerateInputError`. -/
theorem c5_no_zero_volatility_check (returns : List (List ℝ))
    (weights : List ℝ)
    (hshape : ∀ row ∈ returns, row.length = weights.length)
    (hstd : Engine.std (PortfolioAnalyzer.portfolioReturns returns weights)
      = 0) :
    PortfolioAnalyzer.calculate_portfolio_metrics returns weights =
        Except.ok (PortfolioAnalyzer.metricsFromSeries
          (PortfolioAnalyzer.portfolioReturns returns weights)) ∧
      (PortfolioAnalyzer.metricsFromSeries
        (PortfolioAnalyzer.portfolioReturns returns weights)).volatility
        = 0 ∧
      (PortfolioAnalyzer.metricsFromSeries
          (PortfolioAnalyzer.portfolioReturns returns weights)).sharpe =
        ((PortfolioAnalyzer.metricsFromSeries
            (PortfolioAnalyzer.portfolioReturns returns weights)).annualized_return
          - (PortfolioAnalyzer.risk_free_rate : ℝ)) / 0 := by
  set p := PortfolioAnalyzer.portfolioReturns returns weights with hp
  have hvol : (PortfolioAnalyzer.metricsFromSeries p).volatility
      = Engine.std p * Real.sqrt 252 := rfl
  have hsh : (PortfolioAnalyzer.metricsFromSeries p).sharpe =
      ((PortfolioAnalyzer.metricsFromSeries p).annualized_return
        - (PortfolioAnalyzer.risk_free_rate : ℝ)) /
        (Engine.std p * Real.sqrt 252) := rfl
  refine ⟨?_, ?_, ?_⟩
  · rw [PortfolioAnalyzer.calculate_portfolio_metrics, if_pos hshape]
  · rw [hvol, hstd, zero_mul]
  · rw [hsh, hstd, zero_mul]

/-- C5 witness: the concrete constant-return input. -/
theorem c5_no_zero_volatility_check_witness :
    PortfolioAnalyzer.calculate_portfolio_metrics [[(1:ℝ)/10], [1/10]]
        [1] =
      Except.ok (PortfolioAnalyzer.metricsFromSeries
        (PortfolioAnalyzer.portfolioReturns [[(1:ℝ)/10], [1/10]] [1])) ∧
    (PortfolioAnalyzer.metricsFromSeries
      (PortfolioAnalyzer.portfolioReturns [[(1:ℝ)/10], [1/10]]
        [1])).volatility = 0 ∧
    (PortfolioAnalyzer.metricsFromSeries
        (PortfolioAnalyzer.portfolioReturns [[(1:ℝ)/10], [1/10]]
          [1])).sharpe =
      ((PortfolioAnalyzer.metricsFromSeries
          (PortfolioAnalyzer.portfolioReturns [[(1:ℝ)/10], [1/10]]
            [1])).annualized_return
        - (PortfolioAnalyzer.risk_free_rate : ℝ)) / 0 :=
  c5_no_zero_volatility_check [[(1:ℝ)/10], [1/10]] [1]
    (by
      intro row hrow
      simp at hrow
      simp [hrow])
    (by
      have hvar : Engine.sampleVar (PortfolioAnalyzer.portfolioReturns
          [[(1:ℝ)/10], [1/10]] [1]) = 0 := by
        norm_num [Engine.sampleVar, Engine.mean,
          PortfolioAnalyzer.portfolioReturns, List.zipWith]
      rw [Engine.std, hvar, Real.sqrt_zero])

/-- C7: zeroing out asset B reproduces the single-asset metrics.  For
every two-asset return matrix, `calculate_portfolio_metrics` with
weights `[1, 0]` equals `calculate_portfolio_metrics` on asset A's
series alone with weight `[1]`: the per-period portfolio returns
coincide and every metric is derived from them. -/
theorem c7_zero_weight_roundtrip (rows : List (ℝ × ℝ)) :
    PortfolioAnalyzer.calculate_portfolio_metrics
        (rows.map (fun p => [p.1, p.2])) [1, 0] =
      PortfolioAnalyzer.calculate_portfolio_metrics
        (rows.map (fun p => [p.1])) [1] := by
  have h2 : ∀ row ∈ rows.map (fun p : ℝ × ℝ => [p.1, p.2]),
      row.length = ([1, 0] : List ℝ).length := by
    intro row hrow
    obtain ⟨p, _, rfl⟩ := List.mem_map.1 hrow
    simp
  have h1 : ∀ row ∈ rows.map (fun p : ℝ × ℝ => [p.1]),
      row.length = ([1] : List ℝ).length := by
    intro row hrow
    obtain ⟨p, _, rfl⟩ := List.mem_map.1 hrow
    simp
  rw [PortfolioAnalyzer.calculate_portfolio_metrics,
    PortfolioAnalyzer.calculate_portfolio_metrics, if_pos h2, if_pos h1]
  have hpr : PortfolioAnalyzer.portfolioReturns
      (rows.map (fun p : ℝ × ℝ => [p.1, p.2])) [1, 0] =
      PortfolioAnalyzer.portfolioReturns
        (rows.map (fun p : ℝ × ℝ => [p.1])) [1] := by
    rw [PortfolioAnalyzer.portfolioReturns,
      PortfolioAnalyzer.portfolioReturns, List.map_map, List.map_map]
    apply List.map_congr_left
    intro p _
    simp [List.zipWith]
  rw [hpr]

namespace PortfolioAnalyzer

lemma mc_eval_mean : portfolioMean [[0], [1], [2]] [1] = 1 := by
  rw [portfolioMean]
  simp [Finset.sum_range_one, colMean, Engine.mean, List.getD]
  norm_num

lemma mc_eval_var : portfolioVar [[0], [1], [2]] [1] = 1 := by
  rw [portfolioVar]
  simp [Finset.sum_range_one, colCov, Engine.mean, List.getD, List.zipWith]
  norm_num

lemma mc_eval_final (z : ℝ) :
    (monte_carlo_simulation [[0], [1], [2]] [1] [[z]]).final_values
      = [2 + z] := by
  have hdef : (monte_carlo_simulation [[0], [1], [2]] [1] [[z]]).final_values
      = [(Engine.cumprodList
          ([z].map (fun w => portfolioMean [[0], [1], [2]] [1] +
            Real.sqrt (portfolioVar [[0], [1], [2]] [1]) * w))).getLastD 0] :=
    rfl
  rw [hdef, mc_eval_mean, mc_eval_var, Real.sqrt_one]
  simp [Engine.cumprodList, Engine.cumprodAux, List.getLastD]
  ring

end PortfolioAnalyzer

/-- C8 counterexample: `monte_carlo_simulation` reads the global numpy
random generator (modelled as the explicit draw stream): two calls with
identical arguments but different ambient RNG draws return different
results, so the operation is not a pure function of its arguments. -/
theorem c8_monte_carlo_not_pure_counterexample :
    PortfolioAnalyzer.monte_carlo_simulation [[0], [1], [2]] [1] [[0]] ≠
      PortfolioAnalyzer.monte_carlo_simulation [[0], [1], [2]] [1] [[1]] := by
  intro h
  have hfv := congrArg PortfolioAnalyzer.MCResult.final_values h
  rw [PortfolioAnalyzer.mc_eval_final, PortfolioAnalyzer.mc_eval_final] at hfv
  have : (2 : ℝ) + 0 = 2 + 1 := List.head_eq_of_cons_eq hfv
  norm_num at this

/-- C8 (amended): the engine's randomized operations are functions of
their arguments together with the consumed RNG draws, not of the
arguments alone: at a concrete argument tuple, any two distinct draw
streams give `monte_carlo_simulation` distinct results (the terminal
value is `2 + z` for draw `z`). -/
theorem c8_monte_carlo_rng_dependence (z z' : ℝ) (hzz : z ≠ z') :
    PortfolioAnalyzer.monte_carlo_simulation [[0], [1], [2]] [1] [[z]] ≠
      PortfolioAnalyzer.monte_carlo_simulation [[0], [1], [2]] [1] [[z']] := by
  intro h
  have hfv := congrArg PortfolioAnalyzer.MCResult.final_values h
  rw [PortfolioAnalyzer.mc_eval_final, PortfolioAnalyzer.mc_eval_final] at hfv
  have h2 : (2 : ℝ) + z = 2 + z' := List.head_eq_of_cons_eq hfv
  exact hzz (by linarith)

/-- C8 witness: two concrete distinct draws. -/
theorem c8_monte_carlo_rng_dependence_witness :
    PortfolioAnalyzer.monte_carlo_simulation [[0], [1], [2]] [1] [[2]] ≠
      PortfolioAnalyzer.monte_carlo_simulation [[0], [1], [2]] [1] [[3]] :=
  c8_monte_carlo_rng_dependence 2 3 (by norm_num)
